import Mathlib

/-!
Shallow embedding of the UART driver in `src/uart_print.c` (repository
`scalog`): the interrupt-driven receive buffer (`s_uart_rx_buf` /
`s_uart_rx_buf_data`), its interrupt handler `USART1_IRQHandler`, the
consumer `uart_read`, the reset helper `uart_irq_buf_reset`, and the
blocking transmit path `uart_write` / `uart_write_byte` / `uart_write_msg`.

Pointers into the static byte array `s_uart_rx_buf` are modelled as
offsets from `buf_ptr_start` (so `buf_ptr_start` itself is offset `0` and
`buf_ptr_cur` becomes the natural-number field `cur`).  Bytes are natural
numbers; stores through a `uint8_t` pointer truncate with `% 256`.
`num_bytes` and `buf_sz` are `uint16_t` in the C code; they are modelled
as `Nat` — the handler only increments `num_bytes` when
`num_bytes < buf_sz ≤ 2^16 - 1`, so the increment can never wrap and the
`Nat` model is exact on the states the code manipulates.

The transmit hardware is modelled by its observable trace: each
`USART_SendData` call appends the byte handed to the data register, so a
transmit function denotes the list of bytes sent, in order.
-/

namespace Scalog

/-- Constant `UART_RX_BUF_SZ` from uart_print.c: size of the static RX buffer. -/
def UART_RX_BUF_SZ : Nat := 1024

/-- Structure `uart_irq_buf_type` together with the backing array `s_uart_rx_buf`
(field `data`, whose entries are the array's bytes).  `cur` is the offset
`buf_ptr_cur - buf_ptr_start`. -/
structure uart_irq_buf_type where
  data : List Nat
  buf_sz : Nat
  cur : Nat
  num_bytes : Nat
  error_rx_full : Bool
  error_overrun : Bool
  deriving Repr, DecidableEq

/-- Function `uart_irq_buf_reset` from uart_print.c: zero the byte count, move the
cursor back to the start of the buffer, clear both error flags.  (The
NVIC disable/enable bracket is atomicity with respect to the interrupt
handler; in this sequential model every operation is atomic.) -/
def uart_irq_buf_reset (irq_buf : uart_irq_buf_type) : uart_irq_buf_type :=
  { irq_buf with
      num_bytes := 0
      cur := 0
      error_rx_full := false
      error_overrun := false }

/-- Function `USART1_IRQHandler` from uart_print.c.  `rxne` is the hardware
condition `USART_GetITStatus(USART1, USART_IT_RXNE) != RESET`; `byte` is
the value `USART_ReceiveData(USART1)` would deliver.  When the buffer is
full the handler only sets `error_rx_full`; otherwise it stores the byte
at the current cursor (a `uint8_t` store, hence `% 256`), advances the
cursor and increments the byte count. -/
def USART1_IRQHandler (rxne : Bool) (byte : Nat)
    (s : uart_irq_buf_type) : uart_irq_buf_type :=
  if rxne then
    if s.buf_sz ≤ s.num_bytes then
      { s with error_rx_full := true }
    else
      { s with
          data := s.data.set s.cur (byte % 256)
          cur := s.cur + 1
          num_bytes := s.num_bytes + 1 }
  else
    s

/-- Modelled from the spec: the error codes `ERR_UART_RX_BUF_FULL` and
`ERR_UART_OVERRUN` returned by `uart_read` are defined in `uart_print.h`,
which is not under src/; per spec §7 they are two distinct error codes,
distinct from every ordinary byte count, so the `uint16_t` return value
of `uart_read` is modelled as this sum type. -/
inductive uart_read_result where
  | ok (bytes_ret : Nat)
  | err_uart_rx_buf_full
  | err_uart_overrun
  deriving Repr, DecidableEq

/-- Function `uart_read` from uart_print.c.  Returns the C return value, the
receive-buffer state after the call, and the bytes `memcpy`ed into the
caller's destination buffer.  On a latched error it resets the buffer and
copies nothing.  Otherwise `bytes_ret = min(bytes_req, num_bytes)` worth
of bytes are copied out, the remaining `bytes_rem` bytes are `memmove`d
to the front of the buffer (offsets `≥ bytes_rem` keep their old
contents), the cursor is set back to `buf_ptr_start` and `num_bytes`
becomes `bytes_rem`. -/
def uart_read (bytes_req : Nat) (s : uart_irq_buf_type) :
    uart_read_result × uart_irq_buf_type × List Nat :=
  if s.error_rx_full = true then
    (.err_uart_rx_buf_full, uart_irq_buf_reset s, [])
  else if s.error_overrun = true then
    (.err_uart_overrun, uart_irq_buf_reset s, [])
  else
    let bytes_ret := if bytes_req ≤ s.num_bytes then bytes_req else s.num_bytes
    let bytes_rem := if bytes_req ≤ s.num_bytes then s.num_bytes - bytes_req else 0
    (.ok bytes_ret,
      { s with
          data := (s.data.drop bytes_ret).take bytes_rem ++ s.data.drop bytes_rem
          cur := 0
          num_bytes := bytes_rem },
      s.data.take bytes_ret)

/-- Function `uart_write_byte` from uart_print.c, denoted by its transmit trace:
after spinning on TXE it hands exactly one byte to `USART_SendData`
(through a `uint8_t` parameter, hence `% 256`). -/
def uart_write_byte (byte : Nat) : List Nat :=
  [byte % 256]

/-- The `for` loop of `uart_write`: transmit `buf[i]`, `buf[i+1]`, ...
while `rem` iterations remain (`rem = bytes - i` in the C loop),
concatenating the traces in order. -/
def uart_write_loop (buf : List Nat) (i : Nat) : Nat → List Nat
  | 0 => []
  | rem + 1 => uart_write_byte (buf.getD i 0) ++ uart_write_loop buf (i + 1) rem

/-- Function `uart_write` from uart_print.c: the transmit trace of the loop over
all `bytes` bytes of `buf`, paired with the C return value (always
`bytes`). -/
def uart_write (buf : List Nat) (bytes : Nat) : List Nat × Nat :=
  (uart_write_loop buf 0 bytes, bytes)

/-- Function `strlen` on a C string modelled as a byte list: the number of bytes
before the first NUL. -/
def strlen (msg : List Nat) : Nat :=
  (msg.takeWhile (fun c => c ≠ 0)).length

/-- Function `uart_write_msg` from uart_print.c: transmit `strlen(msg)` bytes of
the message, then the byte `'\n'` (10), then the byte `'\r'` (13). -/
def uart_write_msg (msg : List Nat) : List Nat :=
  (uart_write msg (strlen msg)).1 ++ uart_write_byte 10 ++ uart_write_byte 13

/-- The RX-buffer state set up by `uart_setup_irq` (with the static array
`s_uart_rx_buf` zero-initialized), generalized over the capacity; the
program itself uses `uart_buf_init UART_RX_BUF_SZ`. -/
def uart_buf_init (cap : Nat) : uart_irq_buf_type :=
  { data := List.replicate cap 0
    buf_sz := cap
    cur := 0
    num_bytes := 0
    error_rx_full := false
    error_overrun := false }

/-- The initial state of the actual program (capacity `UART_RX_BUF_SZ`). -/
def uart_init_state : uart_irq_buf_type :=
  uart_buf_init UART_RX_BUF_SZ

/-- The operations that mutate the receive-buffer state: an interrupt
handler invocation, a `uart_read` call, a `uart_irq_buf_reset` call. -/
inductive uart_action where
  | recv (rxne : Bool) (byte : Nat)
  | read (bytes_req : Nat)
  | reset
  deriving Repr, DecidableEq

/-- One step of the receive-buffer state machine. -/
def uart_step (s : uart_irq_buf_type) : uart_action → uart_irq_buf_type
  | .recv rxne byte => USART1_IRQHandler rxne byte s
  | .read bytes_req => (uart_read bytes_req s).2.1
  | .reset => uart_irq_buf_reset s

/-- States of the receive buffer reachable from the initialized state
(of any capacity `cap`) by handler invocations, reads and resets. -/
inductive uart_reachable (cap : Nat) : uart_irq_buf_type → Prop where
  | init : uart_reachable cap (uart_buf_init cap)
  | step : ∀ s a, uart_reachable cap s → uart_reachable cap (uart_step s a)

/-- Folding a sequence of handler invocations over a state (used to state
that a latched error suppresses all subsequent stores). -/
def uart_run_recvs (s : uart_irq_buf_type) (l : List (Bool × Nat)) :
    uart_irq_buf_type :=
  l.foldl (fun t p => USART1_IRQHandler p.1 p.2 t) s

/-- A concrete error-free state: capacity 4 holding the two bytes
`0x41 0x42` (Scenario A of the spec). -/
def uart_buf_two_bytes : uart_irq_buf_type :=
  { data := [65, 66, 0, 0]
    buf_sz := 4
    cur := 2
    num_bytes := 2
    error_rx_full := false
    error_overrun := false }

/-- A concrete full state with `error_rx_full` latched. -/
def uart_buf_full_flagged : uart_irq_buf_type :=
  { data := [1, 2]
    buf_sz := 2
    cur := 2
    num_bytes := 2
    error_rx_full := true
    error_overrun := false }

/-- A concrete full state whose full flag is not yet latched. -/
def uart_buf_full_unflagged : uart_irq_buf_type :=
  { data := [7, 8]
    buf_sz := 2
    cur := 2
    num_bytes := 2
    error_rx_full := false
    error_overrun := false }

/-- A concrete error-free state: capacity 8 holding the six bytes
`A..F` (Scenario C of the spec). -/
def uart_buf_scenario_c : uart_irq_buf_type :=
  { data := [65, 66, 67, 68, 69, 70, 0, 0]
    buf_sz := 8
    cur := 6
    num_bytes := 6
    error_rx_full := false
    error_overrun := false }

/-- The inductive invariant of the receive-buffer state machine: the
capacity fields are those fixed at initialization, the byte count never
exceeds the capacity, the cursor never runs ahead of the byte count, the
overrun flag is never raised, and the full flag is only up when the
buffer really is full. -/
def uart_inv (cap : Nat) (s : uart_irq_buf_type) : Prop :=
  s.buf_sz = cap ∧ s.data.length = cap ∧ s.num_bytes ≤ s.buf_sz ∧
  s.cur ≤ s.num_bytes ∧ s.error_overrun = false ∧
  (s.error_rx_full = true → s.num_bytes = s.buf_sz)

theorem uart_inv_init (cap : Nat) : uart_inv cap (uart_buf_init cap) := by
  simp [uart_inv, uart_buf_init]

theorem uart_inv_handler {cap : Nat} {s : uart_irq_buf_type}
    (h : uart_inv cap s) (rxne : Bool) (byte : Nat) :
    uart_inv cap (USART1_IRQHandler rxne byte s) := by
  obtain ⟨h1, h2, h3, h4, h5, h6⟩ := h
  unfold USART1_IRQHandler uart_inv
  by_cases hr : rxne = true
  · by_cases hfull : s.buf_sz ≤ s.num_bytes
    · simp only [hr, if_true, hfull, if_pos]
      exact ⟨h1, h2, h3, h4, h5, fun _ => Nat.le_antisymm h3 hfull⟩
    · simp only [hr, if_true, hfull, if_neg, not_false_iff]
      refine ⟨h1, by simpa using h2, by omega, by omega, h5, ?_⟩
      intro hflag
      exact absurd (h6 hflag) (by omega)
  · simp only [Bool.not_eq_true] at hr
    simp only [hr, Bool.false_eq_true, if_false]
    exact ⟨h1, h2, h3, h4, h5, h6⟩

theorem uart_inv_reset {cap : Nat} {s : uart_irq_buf_type}
    (h : uart_inv cap s) : uart_inv cap (uart_irq_buf_reset s) := by
  obtain ⟨h1, h2, _, _, _, _⟩ := h
  exact ⟨h1, h2, Nat.zero_le _, Nat.le_refl _, rfl, by simp [uart_irq_buf_reset]⟩

theorem uart_inv_read {cap : Nat} {s : uart_irq_buf_type}
    (h : uart_inv cap s) (bytes_req : Nat) :
    uart_inv cap (uart_read bytes_req s).2.1 := by
  obtain ⟨h1, h2, h3, h4, h5, h6⟩ := h
  unfold uart_read
  by_cases hfull : s.error_rx_full = true
  · simp only [hfull, if_pos]
    exact uart_inv_reset ⟨h1, h2, h3, h4, h5, h6⟩
  · simp only [Bool.not_eq_true] at hfull
    unfold uart_inv
    simp only [hfull, Bool.false_eq_true, if_false, h5]
    by_cases hreq : bytes_req ≤ s.num_bytes
    · simp only [hreq, if_pos]
      refine ⟨h1, ?_, by omega, by omega, by simp [h5], by simp [hfull]⟩
      simp only [List.length_append, List.length_take, List.length_drop, h2]
      omega
    · simp only [hreq, if_neg, not_false_iff]
      refine ⟨h1, ?_, by omega, by omega, by simp [h5], by simp [hfull]⟩
      simp only [List.length_append, List.length_take, List.length_drop, h2]
      omega

theorem uart_inv_of_reachable {cap : Nat} {s : uart_irq_buf_type}
    (h : uart_reachable cap s) : uart_inv cap s := by
  induction h with
  | init => exact uart_inv_init cap
  | step s a _ ih =>
    cases a with
    | recv rxne byte => exact uart_inv_handler ih rxne byte
    | read bytes_req => exact uart_inv_read ih bytes_req
    | reset => exact uart_inv_reset ih

theorem uart_run_recvs_of_full {cap : Nat} (l : List (Bool × Nat)) :
    ∀ s : uart_irq_buf_type, uart_reachable cap s → s.error_rx_full = true →
      (uart_run_recvs s l).data = s.data ∧
      (uart_run_recvs s l).num_bytes = s.num_bytes ∧
      (uart_run_recvs s l).error_rx_full = true := by
  induction l with
  | nil =>
    intro s _ hflag
    exact ⟨rfl, rfl, hflag⟩
  | cons p l ih =>
    intro s hreach hflag
    have hinv := uart_inv_of_reachable hreach
    have hfull : s.buf_sz ≤ s.num_bytes := (hinv.2.2.2.2.2 hflag).ge
    have hreach2 : uart_reachable cap (USART1_IRQHandler p.1 p.2 s) :=
      uart_reachable.step s (uart_action.recv p.1 p.2) hreach
    have hd : (USART1_IRQHandler p.1 p.2 s).data = s.data := by
      unfold USART1_IRQHandler
      cases p.1 <;> simp [hfull]
    have hn : (USART1_IRQHandler p.1 p.2 s).num_bytes = s.num_bytes := by
      unfold USART1_IRQHandler
      cases p.1 <;> simp [hfull]
    have hf : (USART1_IRQHandler p.1 p.2 s).error_rx_full = true := by
      unfold USART1_IRQHandler
      cases p.1 <;> simp [hfull, hflag]
    have hrun : uart_run_recvs s (p :: l) =
        uart_run_recvs (USART1_IRQHandler p.1 p.2 s) l := rfl
    obtain ⟨d, n, f⟩ := ih (USART1_IRQHandler p.1 p.2 s) hreach2 hf
    exact ⟨by rw [hrun, d, hd], by rw [hrun, n, hn], by rw [hrun, f]⟩

/-- C2: in every reachable receive-buffer state in which either error
flag (`error_rx_full` or `error_overrun`) is set, no sequence of further
Receive Handler (`USART1_IRQHandler`) invocations stores a new byte or
changes `num_bytes`, and the full flag stays latched (only a reset could
clear it). -/
theorem C2_error_latched_blocks_handler (cap : Nat) (s : uart_irq_buf_type)
    (hreach : uart_reachable cap s)
    (herr : s.error_rx_full = true ∨ s.error_overrun = true)
    (l : List (Bool × Nat)) :
    (uart_run_recvs s l).data = s.data ∧
    (uart_run_recvs s l).num_bytes = s.num_bytes ∧
    (uart_run_recvs s l).error_rx_full = true := by
  have hinv := uart_inv_of_reachable hreach
  have hflag : s.error_rx_full = true := by
    rcases herr with h | h
    · exact h
    · exact absurd h (by simp [hinv.2.2.2.2.1])
  exact uart_run_recvs_of_full l s hreach hflag

/-- Witness for C2: with capacity 1, receive two bytes (the second one
latches `error_rx_full`); a further handler invocation then changes
neither the stored data nor `num_bytes`. -/
theorem C2_error_latched_blocks_handler_witness :
    uart_reachable 1 (uart_step (uart_step (uart_buf_init 1)
      (uart_action.recv true 65)) (uart_action.recv true 66)) ∧
    ((uart_step (uart_step (uart_buf_init 1) (uart_action.recv true 65))
        (uart_action.recv true 66)).error_rx_full = true ∨
     (uart_step (uart_step (uart_buf_init 1) (uart_action.recv true 65))
        (uart_action.recv true 66)).error_overrun = true) ∧
    ((uart_run_recvs (uart_step (uart_step (uart_buf_init 1)
          (uart_action.recv true 65)) (uart_action.recv true 66))
        [(true, 67)]).data =
      (uart_step (uart_step (uart_buf_init 1) (uart_action.recv true 65))
        (uart_action.recv true 66)).data ∧
     (uart_run_recvs (uart_step (uart_step (uart_buf_init 1)
          (uart_action.recv true 65)) (uart_action.recv true 66))
        [(true, 67)]).num_bytes =
      (uart_step (uart_step (uart_buf_init 1) (uart_action.recv true 65))
        (uart_action.recv true 66)).num_bytes ∧
     (uart_run_recvs (uart_step (uart_step (uart_buf_init 1)
          (uart_action.recv true 65)) (uart_action.recv true 66))
        [(true, 67)]).error_rx_full = true) := by
  refine ⟨?_, by decide, ?_⟩
  · exact uart_reachable.step _ _ (uart_reachable.step _ _ uart_reachable.init)
  · exact C2_error_latched_blocks_handler 1 _
      (uart_reachable.step _ _ (uart_reachable.step _ _ uart_reachable.init))
      (by decide) [(true, 67)]

/-- C4: in every reachable state, `num_bytes` never exceeds `buf_sz`
(the capacity); and a handler invocation arriving while
`num_bytes = buf_sz` sets `error_rx_full` and neither stores the byte
nor changes `num_bytes`. -/
theorem C4_capacity_bound (cap : Nat) (s : uart_irq_buf_type)
    (hreach : uart_reachable cap s) :
    s.num_bytes ≤ s.buf_sz ∧
    (s.num_bytes = s.buf_sz → ∀ byte : Nat,
      (USART1_IRQHandler true byte s).error_rx_full = true ∧
      (USART1_IRQHandler true byte s).data = s.data ∧
      (USART1_IRQHandler true byte s).num_bytes = s.num_bytes) := by
  have hinv := uart_inv_of_reachable hreach
  refine ⟨hinv.2.2.1, ?_⟩
  intro hfull byte
  have h : s.buf_sz ≤ s.num_bytes := hfull.ge
  unfold USART1_IRQHandler
  simp [h]

/-- Witness for C4: with capacity 1 and one byte received the buffer is
full; the bound holds, and one more handler invocation only raises the
full flag. -/
theorem C4_capacity_bound_witness :
    uart_reachable 1 (uart_step (uart_buf_init 1) (uart_action.recv true 65)) ∧
    ((uart_step (uart_buf_init 1) (uart_action.recv true 65)).num_bytes ≤
      (uart_step (uart_buf_init 1) (uart_action.recv true 65)).buf_sz ∧
     ((uart_step (uart_buf_init 1) (uart_action.recv true 65)).num_bytes =
        (uart_step (uart_buf_init 1) (uart_action.recv true 65)).buf_sz →
      ∀ byte : Nat,
        (USART1_IRQHandler true byte (uart_step (uart_buf_init 1)
          (uart_action.recv true 65))).error_rx_full = true ∧
        (USART1_IRQHandler true byte (uart_step (uart_buf_init 1)
          (uart_action.recv true 65))).data =
          (uart_step (uart_buf_init 1) (uart_action.recv true 65)).data ∧
        (USART1_IRQHandler true byte (uart_step (uart_buf_init 1)
          (uart_action.recv true 65))).num_bytes =
          (uart_step (uart_buf_init 1) (uart_action.recv true 65)).num_bytes)) := by
  refine ⟨?_, ?_⟩
  · exact uart_reachable.step _ _ uart_reachable.init
  · exact C4_capacity_bound 1 _ (uart_reachable.step _ _ uart_reachable.init)

/-- C10: when the Receive Handler is invoked (with a byte pending) while
the buffer is full (`num_bytes ≥ buf_sz`), the entire resulting state is
the old state with only `error_rx_full` set to `true`: stored bytes,
`num_bytes`, the cursor, the capacity and `error_overrun` are unchanged. -/
theorem C10_handler_full_frame (s : uart_irq_buf_type) (byte : Nat)
    (h : s.buf_sz ≤ s.num_bytes) :
    USART1_IRQHandler true byte s = { s with error_rx_full := true } := by
  unfold USART1_IRQHandler
  simp [h]

/-- Witness for C10: a concrete full buffer, hit with one more byte. -/
theorem C10_handler_full_frame_witness :
    uart_buf_full_unflagged.buf_sz ≤ uart_buf_full_unflagged.num_bytes ∧
    USART1_IRQHandler true 9 uart_buf_full_unflagged =
      { uart_buf_full_unflagged with error_rx_full := true } :=
  ⟨by decide, C10_handler_full_frame _ 9 (by decide)⟩

/-- C3: if `error_rx_full` is set when `uart_read` is called then, for
every requested count, the call performs a full reset (`num_bytes = 0`,
cursor back to the start, both flags cleared), returns the
buffer-full error code, and copies zero bytes to the destination. -/
theorem C3_full_error_read_resets (s : uart_irq_buf_type)
    (hflag : s.error_rx_full = true) (bytes_req : Nat) :
    (uart_read bytes_req s).1 = uart_read_result.err_uart_rx_buf_full ∧
    (uart_read bytes_req s).2.2 = [] ∧
    (uart_read bytes_req s).2.1 = uart_irq_buf_reset s ∧
    (uart_read bytes_req s).2.1.num_bytes = 0 ∧
    (uart_read bytes_req s).2.1.cur = 0 ∧
    (uart_read bytes_req s).2.1.error_rx_full = false ∧
    (uart_read bytes_req s).2.1.error_overrun = false := by
  unfold uart_read
  simp [hflag, uart_irq_buf_reset]

/-- Witness for C3: a concrete state with the full flag latched, read
with a request of 5 bytes. -/
theorem C3_full_error_read_resets_witness :
    uart_buf_full_flagged.error_rx_full = true ∧
    ((uart_read 5 uart_buf_full_flagged).1 =
       uart_read_result.err_uart_rx_buf_full ∧
     (uart_read 5 uart_buf_full_flagged).2.2 = [] ∧
     (uart_read 5 uart_buf_full_flagged).2.1 =
       uart_irq_buf_reset uart_buf_full_flagged ∧
     (uart_read 5 uart_buf_full_flagged).2.1.num_bytes = 0 ∧
     (uart_read 5 uart_buf_full_flagged).2.1.cur = 0 ∧
     (uart_read 5 uart_buf_full_flagged).2.1.error_rx_full = false ∧
     (uart_read 5 uart_buf_full_flagged).2.1.error_overrun = false) :=
  ⟨by decide, C3_full_error_read_resets _ (by decide) 5⟩

/-- C6: on an error-free state, `uart_read` returns exactly
`min bytes_req num_bytes` (as its return value and as the number of
bytes copied to the destination), and the new `num_bytes` is the old one
minus the returned count; in particular a request of at least
`num_bytes` returns exactly `num_bytes` and leaves the buffer empty. -/
theorem C6_read_returns_min (bytes_req : Nat) (s : uart_irq_buf_type)
    (h1 : s.error_rx_full = false) (h2 : s.error_overrun = false)
    (h3 : s.num_bytes ≤ s.data.length) :
    (uart_read bytes_req s).1 = uart_read_result.ok (min bytes_req s.num_bytes) ∧
    (uart_read bytes_req s).2.2.length = min bytes_req s.num_bytes ∧
    (uart_read bytes_req s).2.1.num_bytes =
      s.num_bytes - min bytes_req s.num_bytes ∧
    (s.num_bytes ≤ bytes_req →
      (uart_read bytes_req s).1 = uart_read_result.ok s.num_bytes ∧
      (uart_read bytes_req s).2.1.num_bytes = 0) := by
  unfold uart_read
  simp only [h1, h2, Bool.false_eq_true, if_false]
  by_cases hreq : bytes_req ≤ s.num_bytes
  · have hmin : min bytes_req s.num_bytes = bytes_req := Nat.min_eq_left hreq
    rw [hmin]
    simp only [hreq, if_pos]
    refine ⟨by simp, ?_, by simp, ?_⟩
    · simp only [List.length_take]
      omega
    · intro hge
      have heq : bytes_req = s.num_bytes := Nat.le_antisymm hreq hge
      subst heq
      simp
  · have hlt : s.num_bytes < bytes_req := Nat.lt_of_not_le hreq
    have hmin : min bytes_req s.num_bytes = s.num_bytes :=
      Nat.min_eq_right (Nat.le_of_lt hlt)
    rw [hmin]
    simp only [hreq, if_neg, not_false_iff]
    refine ⟨by simp, ?_, by simp, fun hge => ⟨by simp, by simp⟩⟩
    simp only [List.length_take]
    omega

/-- Witness for C6: Scenario A of the spec — two bytes received, a read
of 10 returns both and empties the buffer. -/
theorem C6_read_returns_min_witness :
    uart_buf_two_bytes.error_rx_full = false ∧
    uart_buf_two_bytes.error_overrun = false ∧
    uart_buf_two_bytes.num_bytes ≤ uart_buf_two_bytes.data.length ∧
    ((uart_read 10 uart_buf_two_bytes).1 =
       uart_read_result.ok (min 10 uart_buf_two_bytes.num_bytes) ∧
     (uart_read 10 uart_buf_two_bytes).2.2.length =
       min 10 uart_buf_two_bytes.num_bytes ∧
     (uart_read 10 uart_buf_two_bytes).2.1.num_bytes =
       uart_buf_two_bytes.num_bytes - min 10 uart_buf_two_bytes.num_bytes ∧
     (uart_buf_two_bytes.num_bytes ≤ 10 →
      (uart_read 10 uart_buf_two_bytes).1 =
        uart_read_result.ok uart_buf_two_bytes.num_bytes ∧
      (uart_read 10 uart_buf_two_bytes).2.1.num_bytes = 0)) :=
  ⟨by decide, by decide, by decide,
    C6_read_returns_min 10 _ (by decide) (by decide) (by decide)⟩

/-- C5: on an error-free state, after `uart_read` copies
`bytes_copied = min bytes_req num_bytes` bytes out, every byte that was
stored at offset `bytes_copied + i` (for `i < num_bytes - bytes_copied`)
is afterwards stored at offset `i`: the remaining data is compacted to
the front of the buffer byte-for-byte. -/
theorem C5_compaction_correct (bytes_req : Nat) (s : uart_irq_buf_type)
    (h1 : s.error_rx_full = false) (h2 : s.error_overrun = false)
    (h3 : s.num_bytes ≤ s.data.length)
    (i : Nat) (hi : i < s.num_bytes - min bytes_req s.num_bytes) :
    (uart_read bytes_req s).2.1.data.getD i 0 =
      s.data.getD (min bytes_req s.num_bytes + i) 0 := by
  unfold uart_read
  simp only [h1, h2, Bool.false_eq_true, if_false]
  by_cases hreq : bytes_req ≤ s.num_bytes
  · have hmin : min bytes_req s.num_bytes = bytes_req := Nat.min_eq_left hreq
    rw [hmin] at hi ⊢
    simp only [hreq, if_pos]
    have hlen : ((s.data.drop bytes_req).take (s.num_bytes - bytes_req)).length =
        s.num_bytes - bytes_req := by
      simp only [List.length_take, List.length_drop]
      omega
    rw [List.getD_eq_getElem?_getD, List.getD_eq_getElem?_getD,
      List.getElem?_append_left (by rw [hlen]; exact hi),
      List.getElem?_take_of_lt hi, List.getElem?_drop]
  · have hmin : min bytes_req s.num_bytes = s.num_bytes :=
      Nat.min_eq_right (Nat.le_of_lt (Nat.lt_of_not_le hreq))
    rw [hmin] at hi
    omega

/-- Witness for C5: Scenario C of the spec — capacity 8 holding the six
bytes `A..F`, `read(2)`; the byte previously at offset 2 (`C`) is
afterwards at offset 0. -/
theorem C5_compaction_correct_witness :
    uart_buf_scenario_c.error_rx_full = false ∧
    uart_buf_scenario_c.error_overrun = false ∧
    uart_buf_scenario_c.num_bytes ≤ uart_buf_scenario_c.data.length ∧
    0 < uart_buf_scenario_c.num_bytes -
        min 2 uart_buf_scenario_c.num_bytes ∧
    (uart_read 2 uart_buf_scenario_c).2.1.data.getD 0 0 =
      uart_buf_scenario_c.data.getD
        (min 2 uart_buf_scenario_c.num_bytes + 0) 0 :=
  ⟨by decide, by decide, by decide, by decide,
    C5_compaction_correct 2 _ (by decide) (by decide) (by decide) 0 (by decide)⟩

/-- C7: in every reachable state `error_overrun` is `false` — no
sequence of handler invocations, reads and resets ever sets it — and
consequently `uart_read` never returns the overrun error code. -/
theorem C7_overrun_never_set (cap : Nat) (s : uart_irq_buf_type)
    (hreach : uart_reachable cap s) :
    s.error_overrun = false ∧
    ∀ bytes_req : Nat,
      (uart_read bytes_req s).1 ≠ uart_read_result.err_uart_overrun := by
  have hinv := uart_inv_of_reachable hreach
  have hov : s.error_overrun = false := hinv.2.2.2.2.1
  refine ⟨hov, fun bytes_req => ?_⟩
  unfold uart_read
  by_cases hflag : s.error_rx_full = true
  · simp [hflag]
  · simp [hflag, hov]

/-- Witness for C7: the initialized state of capacity 1. -/
theorem C7_overrun_never_set_witness :
    uart_reachable 1 (uart_buf_init 1) ∧
    ((uart_buf_init 1).error_overrun = false ∧
     ∀ bytes_req : Nat,
       (uart_read bytes_req (uart_buf_init 1)).1 ≠
         uart_read_result.err_uart_overrun) :=
  ⟨uart_reachable.init, C7_overrun_never_set 1 _ uart_reachable.init⟩

/-- C1 (evaluation at the failing input): from an error-free buffer
holding two bytes, a successful `uart_read` of one byte leaves
`num_bytes = 1` (one compacted byte remains) but sets the cursor back to
the start of the buffer (`cur = 0`), so the write cursor does NOT equal
`occupied - bytes_copied` as the claim states; consequently the next
byte delivered by the handler is stored at offset 0, overwriting the
remaining compacted byte (`66` is replaced by `90`). -/
theorem C1_read_cursor_reset_bug :
    (uart_read 1 uart_buf_two_bytes).1 = uart_read_result.ok 1 ∧
    (uart_read 1 uart_buf_two_bytes).2.1.num_bytes = 1 ∧
    (uart_read 1 uart_buf_two_bytes).2.1.cur = 0 ∧
    (uart_read 1 uart_buf_two_bytes).2.1.cur ≠
      (uart_read 1 uart_buf_two_bytes).2.1.num_bytes ∧
    (uart_read 1 uart_buf_two_bytes).2.1.data.getD 0 0 = 66 ∧
    (USART1_IRQHandler true 90
      (uart_read 1 uart_buf_two_bytes).2.1).data.getD 0 0 = 90 := by
  decide

/-- C8 (evaluation at the failing input): `uart_write_msg` on the
null-terminated string "hi" transmits the message bytes followed by
line-feed (10) then carriage-return (13) — the reverse of the
carriage-return/line-feed pair the claim (and the function's own
"windows line endings" comment) calls for. -/
theorem C8_write_msg_line_ending_bug :
    uart_write_msg [104, 105, 0] = [104, 105, 10, 13] ∧
    uart_write_msg [104, 105, 0] ≠ [104, 105, 13, 10] := by
  decide

theorem uart_write_loop_eq (buf : List Nat) :
    ∀ (rem i : Nat), i + rem ≤ buf.length →
      uart_write_loop buf i rem =
        ((buf.drop i).take rem).map (fun b => b % 256) := by
  intro rem
  induction rem with
  | zero =>
    intro i _
    simp [uart_write_loop]
  | succ n ih =>
    intro i h
    have hi : i < buf.length := by omega
    rw [show uart_write_loop buf i (n + 1) =
        uart_write_byte (buf.getD i 0) ++ uart_write_loop buf (i + 1) n
      from rfl]
    rw [ih (i + 1) (by omega), List.drop_eq_getElem_cons hi,
      List.take_succ_cons, List.map_cons]
    simp only [uart_write_byte, List.singleton_append,
      List.getD_eq_getElem?_getD, List.getElem?_eq_getElem hi,
      Option.getD_some]

/-- C9: for every input buffer (of bytes, i.e. values < 256) and byte
count within the buffer, `uart_write` performs exactly `bytes`
single-byte hardware sends — the transmit trace is exactly the first
`bytes` bytes of the buffer, in order — and returns exactly `bytes`. -/
theorem C9_write_transmits_all (buf : List Nat) (bytes : Nat)
    (h1 : bytes ≤ buf.length) (h2 : ∀ b ∈ buf, b < 256) :
    (uart_write buf bytes).1 = buf.take bytes ∧
    (uart_write buf bytes).1.length = bytes ∧
    (uart_write buf bytes).2 = bytes := by
  have hmap : ∀ l : List Nat, (∀ b ∈ l, b < 256) →
      l.map (fun b => b % 256) = l := by
    intro l hl
    induction l with
    | nil => rfl
    | cons a t ih => simp_all [Nat.mod_eq_of_lt]
  have heq : (uart_write buf bytes).1 = buf.take bytes := by
    show uart_write_loop buf 0 bytes = buf.take bytes
    rw [uart_write_loop_eq buf bytes 0 (by omega)]
    simp only [List.drop_zero]
    exact hmap (buf.take bytes) fun b hb => h2 b (List.mem_of_mem_take hb)
  refine ⟨heq, ?_, rfl⟩
  rw [heq]
  simp only [List.length_take]
  omega

/-- Witness for C9: Scenario D of the spec — writing the two bytes
`0x68 0x69` sends exactly those two bytes, in order, and returns 2. -/
theorem C9_write_transmits_all_witness :
    2 ≤ ([104, 105] : List Nat).length ∧
    (∀ b ∈ ([104, 105] : List Nat), b < 256) ∧
    ((uart_write [104, 105] 2).1 = ([104, 105] : List Nat).take 2 ∧
     (uart_write [104, 105] 2).1.length = 2 ∧
     (uart_write [104, 105] 2).2 = 2) :=
  ⟨by decide, by decide, C9_write_transmits_all [104, 105] 2 (by decide) (by decide)⟩

end Scalog
